import Mathlib

/-!
Verification of the Ludo match engine and tournament orchestrator of the
quantum repository. The socket handlers of the server (updateTokenPosition,
rollDice, moveDone), the helpers checkWinCondition / the turn-advancement
loop, and the in-memory branch of reportMatchResult are embedded as pure
Lean functions over explicit room / tournament states. Transport-only
effects (socket event emission, broadcast scheduling, the derived display
field room.turn) carry no game state and are omitted; every state mutation
performed by the handlers is reproduced in source order.
-/

set_option linter.unusedVariables false

namespace Quantum

/-- Token colors used by the game server (strings "blue"/"red"/"green"/"yellow"
in the source). -/
inductive Color
  | blue | red | green | yellow
deriving DecidableEq, Repr

/-- A token object `{ id, position, isFinished }` as created by the server:
position -1 means base, otherwise an index into the owner color path. The
string id `T<n>` is positional and is represented by the list index n-1. -/
structure Token where
  position : Int
  isFinished : Bool
deriving DecidableEq, Repr

instance : Inhabited Token := ⟨⟨-1, false⟩⟩

/-- A player record of a room, with the fields the match engine reads and
writes. -/
structure Player where
  id : String
  name : String
  color : Color
  tokens : List Token
  consecutiveSixes : Nat
  finished : Bool
  finishPosition : Option Nat
deriving DecidableEq, Repr

/-- An entry of room.finishOrder (source lines 1588-1593). -/
structure FinishEntry where
  playerId : String
  playerName : String
  playerColor : Color
  position : Nat
deriving DecidableEq, Repr

/-- Room state mutated by the match engine. room.turnOrder may be null or an
array of player ids in the source; both the null case and the empty array fall
back to players.length wherever only its length is read, so the empty list
models null. The derived display field room.turn (a copy of the current player
kept in sync by updateRoomTurn) is omitted. -/
structure Room where
  players : List Player
  turnIndex : Nat
  dice : Int
  awaitingMove : Bool
  moveValidated : Bool
  killExtraTurn : Bool
  homeExtraTurn : Bool
  finishOrder : List FinishEntry
  turnOrder : List String
  isRolling : Bool
  gameEnded : Bool
  winners : List (Nat × String × Color)
deriving DecidableEq, Repr

/-- Board geometry. The server imports `getPath` and `safeCells` from
`paths.js`, which is not among the provided sources. Modelled from the spec:
section 4.1 describes a pure provider of an ordered per-color cell path and a
set of safe cells, so every operation is parameterized over an arbitrary
geometry, with cells as natural numbers. -/
structure Geometry where
  getPath : Color → List Nat
  safeCells : List Nat

/-- JS array indexing `path[i]`: a negative or out-of-range index yields
undefined, modelled as none. -/
def cellAt (path : List Nat) (i : Int) : Option Nat :=
  if i < 0 then none else path[i.toNat]?

/-- The stacked-token count of the kill check (source lines 1675-1681): how
many tokens of the enemy sit on exactly the given position, not counting
base tokens. -/
def stackCount (toks : List Token) (pos : Int) : Nat :=
  (toks.filter (fun t => t.position == pos && !(t.position == -1))).length

/-- Inner enemy-token loop of the kill check (source lines 1656-1711):
iterates over the enemy token indices, skipping base, home-stretch and
finished tokens and stacks of two or more, and sends every remaining token
that shares the landed cell back to base. The token list is mutated in place
in the source, so later stack counts see earlier kills; the list is threaded
through the recursion accordingly. -/
def killTokensAux (enemyPath : List Nat) (landedCell : Option Nat) :
    List Nat → List Token → Bool → List Token × Bool
  | [], toks, killed => (toks, killed)
  | idx :: rest, toks, killed =>
    let enemyToken := toks.getD idx default
    if enemyToken.position == -1 then
      killTokensAux enemyPath landedCell rest toks killed
    else if enemyToken.position ≥ (enemyPath.length : Int) - 6 || enemyToken.isFinished then
      killTokensAux enemyPath landedCell rest toks killed
    else
      let enemyCell := cellAt enemyPath enemyToken.position
      if enemyCell == landedCell then
        if 2 ≤ stackCount toks enemyToken.position then
          killTokensAux enemyPath landedCell rest toks killed
        else
          killTokensAux enemyPath landedCell rest (toks.set idx ⟨-1, false⟩) true
      else
        killTokensAux enemyPath landedCell rest toks killed

/-- Outer enemy loop of the kill check (source lines 1651-1712): every player
whose color differs from the mover is scanned; the second component records
whether any kill happened (which sets the kill-extra-turn flag). -/
def killPlayersAux (moverColor : Color) (landedCell : Option Nat)
    (getPath : Color → List Nat) : List Player → Bool → List Player × Bool
  | [], killed => ([], killed)
  | p :: rest, killed =>
    if p.color == moverColor then
      let r := killPlayersAux moverColor landedCell getPath rest killed
      (p :: r.1, r.2)
    else
      let enemyPath := getPath p.color
      let tk := killTokensAux enemyPath landedCell
        (List.range p.tokens.length) p.tokens killed
      let r := killPlayersAux moverColor landedCell getPath rest tk.2
      ({ p with tokens := tk.1 } :: r.1, r.2)

/-- Server-side destination computation of updateTokenPosition (source lines
1540-1551): from base on a six the destination is index 0; from the board it
is the previous position plus the dice; otherwise the handler falls back to
the client-provided numeric position, or keeps the previous position when the
client sent none. -/
def desiredIndexOf (prevPos dice : Int) (clientPos : Option Int) : Int :=
  if prevPos == -1 && dice == 6 then 0
  else if prevPos ≥ 0 then prevPos + dice
  else
    match clientPos with
    | some p => p
    | none => prevPos

/-- Commit phase of updateTokenPosition (source lines 1564-1607): write the
new position, mark the token finished when it reached the last path index
(setting the home-extra-turn flag, and recording the player's finish position
when this completed all four tokens), and set moveValidated. Returns the
updated room together with the updated mover. -/
def commitMove (room : Room) (moverIdx : Nat) (player : Player) (ti : Nat)
    (pathLen : Nat) (desiredIndex : Int) : Room × Player :=
  let token := player.tokens.getD ti default
  let tok1 : Token := { token with position := desiredIndex }
  let finishes := desiredIndex == (pathLen : Int) - 1
  let tok2 := if finishes then { tok1 with isFinished := true } else tok1
  let tokens1 := player.tokens.set ti tok2
  let player1 := { player with tokens := tokens1 }
  if finishes then
    let room1 := { room with homeExtraTurn := true }
    if tokens1.all (fun t => t.isFinished) then
      let player2 := { player1 with finished := true }
      if room1.finishOrder.any (fun f => f.playerId == player.id) then
        ({ room1 with
            players := room1.players.set moverIdx player2,
            moveValidated := true }, player2)
      else
        let pos := room1.finishOrder.length + 1
        let player3 := { player2 with finishPosition := some pos }
        ({ room1 with
            players := room1.players.set moverIdx player3,
            finishOrder := room1.finishOrder ++ [⟨player.id, player.name, player.color, pos⟩],
            moveValidated := true }, player3)
    else
      ({ room1 with
          players := room1.players.set moverIdx player1,
          moveValidated := true }, player1)
  else
    ({ room with
        players := room.players.set moverIdx player1,
        moveValidated := true }, player1)

/-- Kill phase of updateTokenPosition (source lines 1637-1715): skipped
entirely when the mover landed on a safe cell or inside its own home stretch
(the final 6 indices of its path); otherwise every enemy token sharing the
landed cell outside the protections is sent to base and the kill-extra-turn
flag is set. -/
def killPhase (g : Geometry) (room : Room) (moverColor : Color)
    (landedIndex : Int) : Room :=
  if landedIndex != -1 then
    let path := g.getPath moverColor
    let landedCell := cellAt path landedIndex
    let isSafe :=
      match landedCell with
      | some c => g.safeCells.contains c
      | none => false
    let isHomeStretch := landedIndex ≥ (path.length : Int) - 6
    if !isSafe && !isHomeStretch then
      let pk := killPlayersAux moverColor landedCell g.getPath room.players false
      { room with players := pk.1, killExtraTurn := room.killExtraTurn || pk.2 }
    else room
  else room

/-- The updateTokenPosition socket handler (source lines 1478-1733): validates
the caller, recomputes the destination server-side, commits the move and runs
the kill check. Returns the room after the call together with the error
message sent back to the caller, if any; every rejection happens before any
state write, so a rejecting call returns the input room. tokenId is modelled
in its numeric form (the string form T<n> resolves to the same index n-1).
The missing-player case returns silently in the source; the out-of-range
turnIndex case would throw a TypeError before any write, marked here by a
distinguished message. -/
def updateTokenPosition (g : Geometry) (room : Room) (playerId : String)
    (tokenId : Int) (clientPos : Option Int) : Room × Option String :=
  match room.players.find? (fun p => p.id == playerId) with
  | none => (room, none)
  | some player =>
    match room.players[room.turnIndex]? with
    | none => (room, some "TypeError")
    | some currentPlayer =>
      if currentPlayer.id != playerId then (room, some "It is not your turn!")
      else if !room.awaitingMove then
        (room, some "You cannot move now - your turn has been passed!")
      else if !(0 ≤ tokenId && tokenId < (player.tokens.length : Int)) then
        (room, some "Invalid token selected")
      else
        let ti := tokenId.toNat
        let token := player.tokens.getD ti default
        let path := g.getPath player.color
        let prevPos := token.position
        let dice := room.dice
        if token.isFinished then
          (room, some "This token has already finished and cannot be moved.")
        else if clientPos == some (-1) && prevPos ≥ 0 then
          (room, some "Invalid move: cannot move token back to base")
        else
          let desiredIndex := desiredIndexOf prevPos dice clientPos
          let lastIndex : Int := (path.length : Int) - 1
          if desiredIndex > lastIndex then
            (room, some "Invalid move: must roll exact number to enter home")
          else
            let moverIdx := room.players.findIdx (fun p => p.id == playerId)
            let cm := commitMove room moverIdx player ti path.length desiredIndex
            (killPhase g cm.1 player.color desiredIndex, none)

/-- The all-tokens-finished test used by the turn logic (`p.tokens.every(t =>
t.isFinished === true)`, e.g. source line 1796); true for an empty token
list, exactly as Array.prototype.every. -/
def allTokensFinished (p : Player) : Bool :=
  p.tokens.all (fun t => t.isFinished)

/-- The rollDice socket handler (source lines 1348-1474), with the drawn dice
value as a parameter: both the uniform draw and the admin override produce a
value in 1..6 and the handler is otherwise deterministic. The setTimeout body
(source lines 1421-1473) is the continuation of the same logical roll and is
modelled as part of the one operation. Event emission and the derived
room.turn field are omitted. -/
def rollDice (room : Room) (socketId : String) (diceValue : Int) : Room :=
  if room.isRolling then room
  else
    match room.players[room.turnIndex]? with
    | none => room
    | some currentPlayer =>
      if currentPlayer.id != socketId then room
      else
        let room1 := { room with
          isRolling := true, dice := diceValue,
          awaitingMove := true, moveValidated := false }
        let room2 := { room1 with isRolling := false }
        if diceValue == 6 then
          let cp1 := { currentPlayer with
            consecutiveSixes := currentPlayer.consecutiveSixes + 1 }
          if 3 ≤ cp1.consecutiveSixes then
            let cp2 := { cp1 with consecutiveSixes := 0 }
            let len := if room2.turnOrder.length != 0 then room2.turnOrder.length
              else room2.players.length
            { room2 with
              players := room2.players.set room2.turnIndex cp2,
              awaitingMove := false,
              turnIndex := (room2.turnIndex + 1) % len }
          else
            { room2 with players := room2.players.set room2.turnIndex cp1 }
        else
          { room2 with
            players := room2.players.set room2.turnIndex
              { currentPlayer with consecutiveSixes := 0 } }

/-- An entry of the list checkWinCondition builds (source lines 481-487):
a player together with its index in room.players. -/
structure WinEntry where
  player : Player
  index : Nat
deriving DecidableEq, Repr

/-- JS `p.finishPosition || 999`: null, undefined and 0 are falsy. -/
def posOr999 : Option Nat → Nat
  | some n => if n == 0 then 999 else n
  | none => 999

/-- The comparator of checkWinCondition (source lines 497-501), as a total
preorder on entries. -/
def winEntryLE (a b : WinEntry) : Prop :=
  posOr999 a.player.finishPosition ≤ posOr999 b.player.finishPosition

instance : DecidableRel winEntryLE := fun a b =>
  Nat.decLe (posOr999 a.player.finishPosition) (posOr999 b.player.finishPosition)

instance : IsTotal WinEntry winEntryLE :=
  ⟨fun a b => Nat.le_total (posOr999 a.player.finishPosition) (posOr999 b.player.finishPosition)⟩

instance : IsTrans WinEntry winEntryLE :=
  ⟨fun a b c hab hbc => Nat.le_trans hab hbc⟩

/-- checkWinCondition (source lines 477-506): collect the players with a
nonempty, fully finished token list; once their number reaches the threshold
for the room size (1 of 2, 2 of 3, 3 of 4, otherwise 1), return them sorted
by recorded finish position, truncated to the threshold; otherwise null.
Array.prototype.sort with the comparator posA - posB is a stable sort, and a
stable sort by a total preorder is unique, so insertionSort yields the same
list. -/
def checkWinCondition (room : Room) : Option (List WinEntry) :=
  let finishedPlayers :=
    (room.players.enum.map (fun e => WinEntry.mk e.2 e.1)).filter
      (fun e => e.player.tokens.length != 0 &&
        e.player.tokens.all (fun t => t.isFinished))
  if finishedPlayers.length == 0 then none
  else
    let playerCount := room.players.length
    let winnersNeeded :=
      if playerCount == 2 then 1 else if playerCount == 3 then 2
      else if playerCount == 4 then 3 else 1
    if winnersNeeded ≤ finishedPlayers.length then
      some ((List.insertionSort winEntryLE finishedPlayers).take winnersNeeded)
    else none

/-- The turn-advancement loop of moveDone (source lines 1801-1812 and its
three copies): starting from an index, skip players whose tokens are all
finished, wrapping modulo len and giving up after len skips. The fuel
argument is len minus the iteration counter of the source. Returns none when
the player lookup leaves the array (the source would throw there and fall
into the catch fallback). -/
def advanceLoop (players : List Player) (len : Nat) : Nat → Nat → Option Nat
  | next, 0 => some next
  | next, fuel + 1 =>
    match players[next]? with
    | none => none
    | some p =>
      if allTokensFinished p then
        advanceLoop players len ((next + 1) % len) fuel
      else some next

/-- The turn-logic block of moveDone (source lines 1793-1893), applied to the
room with awaitingMove already cleared: the policy branches in the source's
priority order — client-signalled no-move-on-six, kill extra turn, home extra
turn, normal pass on a non-six, and the six rule — each advancing with the
finished-player-skipping loop where the source does, and falling back to a
plain increment modulo the player count where the source's catch block would
(an out-of-range lookup inside the loop). -/
def moveDoneTurn (room1 : Room) (cpFinished : Bool) (noExtraTurnOn6 : Bool) : Room :=
  let len := if room1.turnOrder.length != 0 then room1.turnOrder.length
    else room1.players.length
  if noExtraTurnOn6 then
    match advanceLoop room1.players len ((room1.turnIndex + 1) % len) len with
    | some ni => { room1 with
        turnIndex := ni, homeExtraTurn := false, killExtraTurn := false }
    | none => { room1 with
        turnIndex := (room1.turnIndex + 1) % room1.players.length }
  else if room1.killExtraTurn then
    { room1 with killExtraTurn := false }
  else if room1.homeExtraTurn then
    if !cpFinished then { room1 with homeExtraTurn := false }
    else
      match advanceLoop room1.players len ((room1.turnIndex + 1) % len) len with
      | some ni => { room1 with homeExtraTurn := false, turnIndex := ni }
      | none => { room1 with
          turnIndex := (room1.turnIndex + 1) % room1.players.length }
  else if room1.dice != 6 then
    match advanceLoop room1.players len ((room1.turnIndex + 1) % len) len with
    | some ni => { room1 with turnIndex := ni }
    | none => { room1 with
        turnIndex := (room1.turnIndex + 1) % room1.players.length }
  else
    if cpFinished then
      match advanceLoop room1.players len ((room1.turnIndex + 1) % len) len with
      | some ni => { room1 with turnIndex := ni }
      | none => { room1 with
          turnIndex := (room1.turnIndex + 1) % room1.players.length }
    else room1

/-- The moveDone socket handler (source lines 1735-1930): after validating
the caller it applies the turn-advancement policy in the source's priority
order, then the win check. Returns the room after the call and whether the
call was accepted; rejections return the input room. tokenId is none for a
pass payload carrying no numeric token (null, undefined or a non-numeric
string); the payload field position is unused by the handler. Event emission
and the derived room.turn field are omitted. -/
def moveDone (room : Room) (playerId : String) (tokenId : Option Int)
    (noExtraTurnOn6 : Bool) : Room × Bool :=
  let isPassMove :=
    match tokenId with
    | none => true
    | some n => n == -1
  if !room.awaitingMove then (room, false)
  else
    match room.players[room.turnIndex]? with
    | none => (room, false)
    | some currentPlayer =>
      if currentPlayer.id != playerId then (room, false)
      else if !isPassMove && room.moveValidated == false then (room, false)
      else
        let room2 := moveDoneTurn { room with awaitingMove := false }
          (allTokensFinished currentPlayer) noExtraTurnOn6
        match checkWinCondition room2 with
        | some ws =>
          ({ room2 with
              gameEnded := true,
              winners := ws.enum.map (fun e => (e.1 + 1, e.2.player.name, e.2.player.color)) },
            true)
        | none => (room2, true)

/-- A placement entry reported for a finished match. -/
structure Placement where
  position : Nat
  player_id : String
deriving DecidableEq, Repr

/-- A tournament player record (in-memory form). -/
structure TPlayer where
  player_id : String
  player_name : String
deriving DecidableEq, Repr

/-- A tournament match record (in-memory form). -/
structure MatchRec where
  id : String
  round_number : Nat
  match_index : Nat
  room_code : String
  players : List TPlayer
  status : String
  result : List Placement
deriving DecidableEq, Repr

/-- A tournament in its in-memory form (one entry of tournamentsMemory). The
source field holding the match records is called matches; that word is a
reserved token in Lean, so the field is named matchList here. -/
structure Tournament where
  status : String
  players : List TPlayer
  matchList : List MatchRec
deriving DecidableEq, Repr

/-- Events emitted by reportMatchResult that concern tournament progress. -/
inductive TEvent
  | errorMessage (msg : String)
  | reportResultAck (matchId msg : String)
  | tournamentFinished (winners : List String)
  | roundScheduled (round : Nat) (matchIds : List String)
deriving DecidableEq, Repr

/-- The winner collection of reportMatchResult (source lines 1195-1203): from
every match of the round, the first placement entry with position 1 whose
player_id is truthy. -/
def collectWinners (ms : List MatchRec) : List String :=
  ms.filterMap (fun m =>
    match m.result.find? (fun r => r.position == 1) with
    | some w => if w.player_id != "" then some w.player_id else none
    | none => none)

/-- The group partition of the advancement branch (source lines 1223-1226):
slices of four in list order. -/
def chunksOf4 {α : Type} : List α → List (List α)
  | [] => []
  | x :: xs => (x :: xs.take 3) :: chunksOf4 (xs.drop 3)
termination_by l => l.length
decreasing_by simp; omega

/-- The match-record update of reportMatchResult (source lines 1147-1155):
the reported match gets the placements as result and becomes finished. -/
def updatedMatches (t : Tournament) (matchId : String)
    (placements : List Placement) : List MatchRec :=
  t.matchList.map (fun m =>
    if m.id == matchId then { m with result := placements, status := "finished" }
    else m)

/-- The records of the reported match's round, read back after the update
(source lines 1181-1184). -/
def roundMatches (t : Tournament) (matchId : String)
    (placements : List Placement) (round : Nat) : List MatchRec :=
  (updatedMatches t matchId placements).filter (fun m => m.round_number == round)

/-- The reportMatchResult socket handler (source lines 1129-1346) on its
in-memory branch, which the server uses whenever the external store is
unavailable and which carries the same round logic: record the placements,
mark the match finished, and once every match of that round is finished
either announce the collected first-place winners (at most four) as the
tournament result or build the next round from them in groups of four.
Room binding, auto-start gating and the events that only mirror those
side effects are transport concerns and are omitted; the randomly generated
next-round match ids and room codes are represented by deterministic strings,
which no claim depends on. -/
def reportMatchResult (t : Tournament) (matchId : String)
    (placements : List Placement) : Tournament × List TEvent :=
  match t.matchList.find? (fun m => m.id == matchId) with
  | none => (t, [TEvent.errorMessage "Match not found"])
  | some m0 =>
    let t1 := { t with matchList := updatedMatches t matchId placements }
    let currentRound := m0.round_number
    let finishedMatches := roundMatches t matchId placements currentRound
    let allFinished := finishedMatches.all (fun m => m.status == "finished")
    if !allFinished then
      (t1, [TEvent.reportResultAck matchId "Waiting for other matches to finish..."])
    else
      let winners := collectWinners finishedMatches
      if winners.length == 0 then
        (t1, [TEvent.reportResultAck matchId "No winners to advance"])
      else if winners.length ≤ 4 then
        (t1, [TEvent.tournamentFinished winners,
              TEvent.reportResultAck matchId "Tournament complete!"])
      else
        let nextRound := currentRound + 1
        let newMatches := (chunksOf4 winners).enum.map (fun gi =>
          ({ id := "mm_" ++ toString nextRound ++ "_" ++ toString (gi.1 + 1),
             round_number := nextRound,
             match_index := gi.1 + 1,
             room_code := "match_m_" ++ toString nextRound ++ "_" ++ toString (gi.1 + 1),
             players := gi.2.filterMap (fun pid =>
               t1.players.find? (fun pp => pp.player_id == pid)),
             status := "scheduled",
             result := [] } : MatchRec))
        ({ t1 with matchList := t1.matchList ++ newMatches },
         [TEvent.roundScheduled nextRound (newMatches.map (fun m => m.id)),
          TEvent.reportResultAck matchId ("Advanced to round " ++ toString nextRound)])

instance : Inhabited Player := ⟨⟨"", "", Color.blue, [], 0, false, none⟩⟩

/-- A concrete test geometry: 15-cell paths per color, the green path
overlapping the blue one with an offset of 7, no safe cells. -/
def exG : Geometry :=
  { getPath := fun c =>
      match c with
      | Color.blue => List.range 15
      | Color.green => (List.range 15).map (fun i => i + 7)
      | Color.red => (List.range 15).map (fun i => i + 100)
      | Color.yellow => (List.range 15).map (fun i => i + 200)
    safeCells := [] }

/-- A token still in base. -/
def baseToken : Token := ⟨-1, false⟩

/-- A token that has reached the last index of a 15-cell path. -/
def doneToken : Token := ⟨14, true⟩

/-- Test player holding four base tokens. -/
def exPA : Player := ⟨"a", "A", Color.blue, [baseToken, baseToken, baseToken, baseToken], 0, false, none⟩

/-- Second test player holding four base tokens. -/
def exPB : Player := ⟨"b", "B", Color.green, [baseToken, baseToken, baseToken, baseToken], 0, false, none⟩

/-- Third test player holding four base tokens. -/
def exPC : Player := ⟨"c", "C", Color.red, [baseToken, baseToken, baseToken, baseToken], 0, false, none⟩

/-- Test player with all four tokens finished. -/
def exPAFin : Player := ⟨"a", "A", Color.blue, [doneToken, doneToken, doneToken, doneToken], 0, true, some 1⟩

/-- A two-player room mid-roll: player a to move on a dice of 3, all tokens
in base. -/
def exRoomC1 : Room :=
  { players := [exPA, exPB], turnIndex := 0, dice := 3, awaitingMove := true,
    moveValidated := false, killExtraTurn := false, homeExtraTurn := false,
    finishOrder := [], turnOrder := ["a", "b"], isRolling := false,
    gameEnded := false, winners := [] }

/-- The token value the commit phase writes at the moved index: the new
position, finished when it is the last path index. -/
def committedToken (player : Player) (ti : Nat) (pathLen : Nat) (d : Int) : Token :=
  if d == (pathLen : Int) - 1 then ⟨d, true⟩
  else ⟨d, (player.tokens.getD ti default).isFinished⟩

/-- A room where player a has a token two cells short of home on a dice of 3:
13 + 3 overshoots the last index 14. -/
def exRoomC2 : Room :=
  { exRoomC1 with players := [{ exPA with tokens := [⟨13, false⟩, baseToken, baseToken, baseToken] }, exPB] }

/-- A room whose current player has finished every token. -/
def exRoomC3 : Room :=
  { exRoomC1 with players := [exPAFin, exPB] }

/-- A room where the current player has already rolled two consecutive sixes. -/
def exRoomC4 : Room :=
  { exRoomC1 with players := [{ exPA with consecutiveSixes := 2 }, exPB] }

/-- A three-player room with a stale kill-extra-turn flag whose current player
has finished all four tokens while another player has not. -/
def exRoomC5 : Room :=
  { players := [exPAFin, exPB, exPC], turnIndex := 0, dice := 4, awaitingMove := true,
    moveValidated := true, killExtraTurn := true, homeExtraTurn := false,
    finishOrder := [⟨"a", "A", Color.blue, 1⟩], turnOrder := ["a", "b", "c"],
    isRolling := false, gameEnded := false, winners := [] }

/-- A room where player a is about to land inside its home stretch (index 9 of
a 15-cell path) while a green token sits mid-board. -/
def exRoomC6 : Room :=
  { exRoomC1 with players :=
      [{ exPA with tokens := [⟨6, false⟩, baseToken, baseToken, baseToken] },
       { exPB with tokens := [⟨1, false⟩, baseToken, baseToken, baseToken] }] }

/-- A room where player a moves while a green token is already inside its own
home stretch (index 9 of its 15-cell path). -/
def exRoomC9 : Room :=
  { exRoomC1 with players :=
      [exPA,
       { exPB with tokens := [⟨9, false⟩, baseToken, baseToken, baseToken] }] }

/-- Green test player with all four tokens finished. -/
def exPBFin : Player := ⟨"b", "B", Color.green, [doneToken, doneToken, doneToken, doneToken], 0, true, some 1⟩

/-- A room whose current player rolled two sixes while the other player has
already finished all tokens. -/
def exRoomC10 : Room :=
  { exRoomC1 with players := [{ exPA with consecutiveSixes := 2 }, exPBFin] }

/-- A tournament in progress with a single round-1 match being reported. -/
def exTournament : Tournament :=
  { status := "in_progress",
    players := [⟨"p1", "P1"⟩, ⟨"p2", "P2"⟩],
    matchList := [⟨"m1", 1, 1, "rc1", [⟨"p1", "P1"⟩, ⟨"p2", "P2"⟩], "playing", []⟩] }

/-- find? and findIdx agree: when find? locates an element, findIdx points at
it. -/
theorem find?_findIdx {α : Type} (l : List α) (p : α → Bool) (a : α)
    (h : l.find? p = some a) :
    l.findIdx p < l.length ∧ l[l.findIdx p]? = some a := by
  induction l with
  | nil => simp [List.find?] at h
  | cons b t ih =>
    by_cases hb : p b
    · rw [List.find?_cons_of_pos _ hb] at h
      cases h
      simp [List.findIdx_cons, hb]
    · rw [List.find?_cons_of_neg _ hb] at h
      obtain ⟨h1, h2⟩ := ih h
      rw [List.findIdx_cons]
      simp only [hb, cond_false]
      exact ⟨Nat.succ_lt_succ h1, by simpa using h2⟩

/-- Unfolding of updateTokenPosition when every guard up to the exact-finish
validation passes: the call either rejects for overshooting the path end or
commits and runs the kill check. -/
theorem updateTokenPosition_eq (g : Geometry) (room : Room) (pid : String)
    (tid : Int) (cpos : Option Int) (player cp : Player)
    (hfind : room.players.find? (fun p => p.id == pid) = some player)
    (hcp : room.players[room.turnIndex]? = some cp)
    (hturn : cp.id = pid)
    (hawait : room.awaitingMove = true)
    (htid0 : 0 ≤ tid) (htid1 : tid < (player.tokens.length : Int))
    (hnf : (player.tokens.getD tid.toNat default).isFinished = false)
    (hnb : ¬(cpos = some (-1) ∧ 0 ≤ (player.tokens.getD tid.toNat default).position)) :
    updateTokenPosition g room pid tid cpos =
      (let token := player.tokens.getD tid.toNat default
       let path := g.getPath player.color
       let desiredIndex := desiredIndexOf token.position room.dice cpos
       if desiredIndex > (path.length : Int) - 1 then
         (room, some "Invalid move: must roll exact number to enter home")
       else
         let moverIdx := room.players.findIdx (fun p => p.id == pid)
         let cm := commitMove room moverIdx player tid.toNat path.length desiredIndex
         (killPhase g cm.1 player.color desiredIndex, none)) := by
  have hb1 : (cp.id != pid) = false := by simp [hturn]
  have hb2 : (!(decide (0 ≤ tid) && decide (tid < (player.tokens.length : Int)))) = false := by
    simp [htid0, htid1]
  have hb3 : ((cpos == some (-1)) &&
      decide ((player.tokens.getD tid.toNat default).position ≥ 0)) = false := by
    rcases cpos with _ | p
    · simp
    · by_cases hp : p = -1
      · subst hp
        simp only [beq_self_eq_true, Bool.true_and, decide_eq_false_iff_not, ge_iff_le]
        intro hc
        exact hnb ⟨rfl, hc⟩
      · simp [hp]
  simp only [updateTokenPosition, hfind, hcp, hb1, hawait, hb2, hnf, hb3,
    Bool.not_true, Bool.false_eq_true, if_false, Bool.not_false, Bool.true_eq_false,
    Bool.false_eq_true]

/-- The token-list output of the inner kill loop does not depend on the
threaded killed flag. -/
theorem killTokensAux_fst_indep (ep : List Nat) (lc : Option Nat) :
    ∀ (idxs : List Nat) (toks : List Token) (k1 k2 : Bool),
      (killTokensAux ep lc idxs toks k1).1 = (killTokensAux ep lc idxs toks k2).1 := by
  intro idxs
  induction idxs with
  | nil => intro toks k1 k2; rfl
  | cons idx rest ih =>
    intro toks k1 k2
    simp only [killTokensAux]
    split_ifs <;> apply ih

/-- Unfolding of stackCount over a cons cell. -/
theorem stackCount_cons (a : Token) (l : List Token) (p : Int) :
    stackCount (a :: l) p =
      stackCount l p + (if (a.position == p && !(a.position == -1)) = true then 1 else 0) := by
  simp only [stackCount, List.filter_cons]
  split_ifs with h <;> simp [h, Nat.add_comm]

/-- There is never a stack on the base position. -/
theorem stackCount_base (toks : List Token) : stackCount toks (-1) = 0 := by
  induction toks with
  | nil => rfl
  | cons a l ih =>
    rw [stackCount_cons, ih]
    split_ifs with h
    · simp only [Bool.and_eq_true, beq_iff_eq, Bool.not_eq_true', beq_eq_false_iff_ne] at h
      exact absurd h.1 h.2
    · rfl

/-- Replacing a token that is not on position p by another token not on
position p leaves the stack count of p unchanged. -/
theorem stackCount_set (p : Int) :
    ∀ (toks : List Token) (idx : Nat) (t2 : Token),
      (∀ t, toks[idx]? = some t → t.position ≠ p) → t2.position ≠ p →
      stackCount (toks.set idx t2) p = stackCount toks p := by
  intro toks
  induction toks with
  | nil => intro idx t2 _ _; rfl
  | cons a l ih =>
    intro idx t2 h1 h2
    cases idx with
    | zero =>
      have ha : a.position ≠ p := h1 a (by simp)
      simp only [List.set_cons_zero]
      rw [stackCount_cons, stackCount_cons]
      have e1 : (a.position == p) = false := by simp [ha]
      have e2 : (t2.position == p) = false := by simp [h2]
      simp [e1, e2]
    | succ n =>
      simp only [List.set_cons_succ]
      rw [stackCount_cons, stackCount_cons]
      rw [ih n t2 (fun t ht => h1 t (by simpa using ht)) h2]

/-- The inner kill loop never changes a token that is finished or inside its
own home stretch: such tokens are skipped by the guard, and a kill only
replaces a token that failed that guard. -/
theorem killTokensAux_preserves_protected (ep : List Nat) (lc : Option Nat) :
    ∀ (idxs : List Nat) (toks : List Token) (k : Bool) (j : Nat) (t : Token),
      toks[j]? = some t →
      ((ep.length : Int) - 6 ≤ t.position ∨ t.isFinished = true) →
      (killTokensAux ep lc idxs toks k).1[j]? = some t := by
  intro idxs
  induction idxs with
  | nil => intro toks k j t hj _; exact hj
  | cons idx rest ih =>
    intro toks k j t hj hprot
    simp only [killTokensAux]
    split_ifs with h1 h2 h3 h4
    · exact ih toks k j t hj hprot
    · exact ih toks k j t hj hprot
    · exact ih toks k j t hj hprot
    · have hne : j ≠ idx := by
        intro he
        subst he
        have hgd : toks.getD j default = t := by
          simp [List.getD_eq_getElem?_getD, hj]
        rw [hgd] at h2
        simp only [Bool.or_eq_true, decide_eq_true_eq] at h2
        rcases hprot with hp | hp
        · exact h2 (Or.inl (by simpa using hp))
        · exact h2 (Or.inr (by simpa using hp))
      apply ih
      · rw [List.getElem?_set_ne (by omega)]
        exact hj
      · exact hprot
    · exact ih toks k j t hj hprot

/-- The inner kill loop never changes any token of a stack: if two or more
tokens of the list sit on position p, every token on p survives unchanged
(kills are only performed on positions whose stack count is below two, and
each kill moves a token to base, never onto p, so the stack persists). -/
theorem killTokensAux_preserves_stacked (ep : List Nat) (lc : Option Nat) (p : Int) :
    ∀ (idxs : List Nat) (toks : List Token) (k : Bool),
      2 ≤ stackCount toks p →
      ∀ (j : Nat) (t : Token), toks[j]? = some t → t.position = p →
      (killTokensAux ep lc idxs toks k).1[j]? = some t := by
  intro idxs
  induction idxs with
  | nil => intro toks k _ j t hj _; exact hj
  | cons idx rest ih =>
    intro toks k hstack j t hj hp
    simp only [killTokensAux]
    split_ifs with h1 h2 h3 h4
    · exact ih toks k hstack j t hj hp
    · exact ih toks k hstack j t hj hp
    · exact ih toks k hstack j t hj hp
    · have hq : ¬(2 ≤ stackCount toks (toks.getD idx default).position) := h4
      have hqp : (toks.getD idx default).position ≠ p := by
        intro he
        rw [he] at hq
        exact hq hstack
      have hne : j ≠ idx := by
        intro he
        subst he
        have hgd : toks.getD j default = t := by
          simp [List.getD_eq_getElem?_getD, hj]
        rw [hgd, hp] at hqp
        exact hqp rfl
      have hpm1 : p ≠ -1 := by
        intro he
        rw [he, stackCount_base] at hstack
        omega
      apply ih
      · rw [stackCount_set p toks idx ⟨-1, false⟩]
        · exact hstack
        · intro t0 ht0 he
          apply hqp
          rw [List.getD_eq_getElem?_getD, ht0]
          exact he
        · exact fun he => hpm1 he.symm
      · rw [List.getElem?_set_ne (by omega)]
        exact hj
      · exact hp
    · exact ih toks k hstack j t hj hp

/-- Per-player characterization of the outer kill loop: the mover's color is
skipped unchanged, and every enemy player's token list becomes the inner-loop
result on its own tokens. -/
theorem killPlayersAux_get (mc : Color) (lc : Option Nat) (gp : Color → List Nat) :
    ∀ (ps : List Player) (k : Bool) (i : Nat) (p : Player),
      ps[i]? = some p →
      (killPlayersAux mc lc gp ps k).1[i]? =
        some (if p.color == mc then p
          else { p with tokens :=
            (killTokensAux (gp p.color) lc (List.range p.tokens.length) p.tokens false).1 }) := by
  intro ps
  induction ps with
  | nil => intro k i p hp; simp at hp
  | cons q rest ih =>
    intro k i p hp
    cases i with
    | zero =>
      simp only [List.getElem?_cons_zero, Option.some.injEq] at hp
      subst hp
      cases hcb : (q.color == mc) with
      | true => simp [killPlayersAux, hcb]
      | false =>
        simp only [killPlayersAux, hcb, Bool.false_eq_true, if_false,
          List.getElem?_cons_zero, Option.some.injEq]
        rw [killTokensAux_fst_indep (gp q.color) lc (List.range q.tokens.length) q.tokens k false]
    | succ n =>
      simp only [List.getElem?_cons_succ] at hp
      cases hcb : (q.color == mc) with
      | true =>
        simp only [killPlayersAux, hcb, if_true, List.getElem?_cons_succ]
        exact ih k n p hp
      | false =>
        simp only [killPlayersAux, hcb, Bool.false_eq_true, if_false, List.getElem?_cons_succ]
        exact ih _ n p hp

/-- The commit phase only rewrites the mover's slot of the player list. -/
theorem commitMove_fst_players (r : Room) (mi : Nat) (pl : Player) (ti plen : Nat) (d : Int) :
    (commitMove r mi pl ti plen d).1.players =
      r.players.set mi (commitMove r mi pl ti plen d).2 := by
  simp only [commitMove]
  split_ifs <;> rfl

/-- The updated mover differs from the input mover only at the moved token
slot, which receives the committed token. -/
theorem commitMove_snd_tokens (r : Room) (mi : Nat) (pl : Player) (ti plen : Nat) (d : Int) :
    (commitMove r mi pl ti plen d).2.tokens =
      pl.tokens.set ti (committedToken pl ti plen d) := by
  simp only [commitMove, committedToken]
  split_ifs <;> rfl

/-- The commit phase keeps the mover's color. -/
theorem commitMove_snd_color (r : Room) (mi : Nat) (pl : Player) (ti plen : Nat) (d : Int) :
    (commitMove r mi pl ti plen d).2.color = pl.color := by
  simp only [commitMove]
  split_ifs <;> rfl

/-- The kill phase is skipped outright when the landed cell is safe or the
landed index is inside the mover's final six cells. -/
theorem killPhase_skip (g : Geometry) (room : Room) (mc : Color) (li : Int)
    (h : (∃ c, cellAt (g.getPath mc) li = some c ∧ g.safeCells.contains c = true) ∨
      ((g.getPath mc).length : Int) - 6 ≤ li) :
    killPhase g room mc li = room := by
  simp only [killPhase]
  split_ifs with h1 h2
  · exfalso
    simp only [Bool.and_eq_true, Bool.not_eq_true'] at h2
    rcases h with ⟨c, hc, hs⟩ | hhome
    · rw [hc] at h2
      have hred : g.safeCells.contains c = false := by simpa using h2.1
      rw [hred] at hs
      exact Bool.false_ne_true hs
    · have h3 := h2.2
      simp only [decide_eq_false_iff_not, ge_iff_le, not_le] at h3
      omega
  · rfl
  · rfl

/-- Either the kill phase leaves the room unchanged, or it rewrites exactly
the player list with the outer kill loop's output (setting the extra-turn
flag accordingly). -/
theorem killPhase_cases (g : Geometry) (room : Room) (mc : Color) (li : Int) :
    killPhase g room mc li = room ∨
    (killPhase g room mc li).players =
      (killPlayersAux mc (cellAt (g.getPath mc) li) g.getPath room.players false).1 := by
  simp only [killPhase]
  split_ifs
  · right; rfl
  · left; rfl
  · left; rfl

/-- Case analysis of updateTokenPosition: every call either leaves the room
untouched (one of the guard rejections) or reaches the commit and kill
phases with the found mover, a not-yet-finished addressed token and the
server-computed destination. -/
theorem updateTokenPosition_cases (g : Geometry) (room : Room) (pid : String)
    (tid : Int) (cpos : Option Int) :
    (updateTokenPosition g room pid tid cpos).1 = room ∨
    ∃ player, room.players.find? (fun p => p.id == pid) = some player ∧
      (player.tokens.getD tid.toNat default).isFinished = false ∧
      (updateTokenPosition g room pid tid cpos).1 =
        killPhase g
          (commitMove room (room.players.findIdx (fun p => p.id == pid)) player tid.toNat
            (g.getPath player.color).length
            (desiredIndexOf (player.tokens.getD tid.toNat default).position room.dice cpos)).1
          player.color
          (desiredIndexOf (player.tokens.getD tid.toNat default).position room.dice cpos) := by
  cases hf : room.players.find? (fun p => p.id == pid) with
  | none => left; simp only [updateTokenPosition, hf]
  | some player =>
    cases hcp : room.players[room.turnIndex]? with
    | none => left; simp only [updateTokenPosition, hf, hcp]
    | some cp =>
      simp only [updateTokenPosition, hf, hcp]
      split_ifs with h1 h2 h3 h4 h5 h6
      · left; rfl
      · left; rfl
      · left; rfl
      · left; rfl
      · left; rfl
      · left; rfl
      · right
        refine ⟨player, rfl, ?_, rfl⟩
        simpa using h4

/-- A call to updateTokenPosition on a room that is not awaiting a move never
changes the room: the guard chain rejects before any write. -/
theorem updateTokenPosition_not_awaiting (g : Geometry) (room : Room) (pid : String)
    (tid : Int) (cpos : Option Int) (h : room.awaitingMove = false) :
    (updateTokenPosition g room pid tid cpos).1 = room := by
  cases hf : room.players.find? (fun p => p.id == pid) with
  | none => simp only [updateTokenPosition, hf]
  | some player =>
    cases hcp : room.players[room.turnIndex]? with
    | none => simp only [updateTokenPosition, hf, hcp]
    | some cp =>
      simp only [updateTokenPosition, hf, hcp, h]
      split_ifs with hA hB <;> first | rfl | simp at hB

/-- The committed token always carries the destination as its position. -/
theorem committedToken_position (pl : Player) (ti plen : Nat) (d : Int) :
    (committedToken pl ti plen d).position = d := by
  simp only [committedToken]
  split_ifs <;> rfl

/-- When every guard passes and the server-computed destination overshoots the
last path index, updateTokenPosition rejects with the exact-roll error and
returns the input room. -/
theorem updateTokenPosition_overshoot (g : Geometry) (room : Room) (pid : String)
    (tid : Int) (cpos : Option Int) (player cp : Player)
    (hfind : room.players.find? (fun p => p.id == pid) = some player)
    (hcp : room.players[room.turnIndex]? = some cp)
    (hturn : cp.id = pid)
    (hawait : room.awaitingMove = true)
    (htid0 : 0 ≤ tid) (htid1 : tid < (player.tokens.length : Int))
    (hnf : (player.tokens.getD tid.toNat default).isFinished = false)
    (hnb : ¬(cpos = some (-1) ∧ 0 ≤ (player.tokens.getD tid.toNat default).position))
    (hover : desiredIndexOf (player.tokens.getD tid.toNat default).position room.dice cpos >
      ((g.getPath player.color).length : Int) - 1) :
    updateTokenPosition g room pid tid cpos =
      (room, some "Invalid move: must roll exact number to enter home") := by
  rw [updateTokenPosition_eq g room pid tid cpos player cp hfind hcp hturn hawait
    htid0 htid1 hnf hnb]
  simp only []
  rw [if_pos hover]

/-- When every guard passes and the server-computed destination does not
overshoot, updateTokenPosition accepts: no error is returned, and the mover's
slot holds the mover with exactly the addressed token rewritten to the
committed token. -/
theorem updateTokenPosition_accept (g : Geometry) (room : Room) (pid : String)
    (tid : Int) (cpos : Option Int) (player cp : Player)
    (hfind : room.players.find? (fun p => p.id == pid) = some player)
    (hcp : room.players[room.turnIndex]? = some cp)
    (hturn : cp.id = pid)
    (hawait : room.awaitingMove = true)
    (htid0 : 0 ≤ tid) (htid1 : tid < (player.tokens.length : Int))
    (hnf : (player.tokens.getD tid.toNat default).isFinished = false)
    (hnb : ¬(cpos = some (-1) ∧ 0 ≤ (player.tokens.getD tid.toNat default).position))
    (hle : desiredIndexOf (player.tokens.getD tid.toNat default).position room.dice cpos ≤
      ((g.getPath player.color).length : Int) - 1) :
    (updateTokenPosition g room pid tid cpos).2 = none ∧
    ∃ p1, (updateTokenPosition g room pid tid cpos).1.players[room.players.findIdx
        (fun p => p.id == pid)]? = some p1 ∧
      p1.tokens = player.tokens.set tid.toNat
        (committedToken player tid.toNat (g.getPath player.color).length
          (desiredIndexOf (player.tokens.getD tid.toNat default).position room.dice cpos)) ∧
      p1.color = player.color := by
  rw [updateTokenPosition_eq g room pid tid cpos player cp hfind hcp hturn hawait
    htid0 htid1 hnf hnb]
  simp only []
  rw [if_neg (not_lt.mpr hle)]
  refine ⟨rfl, ?_⟩
  obtain ⟨hmi, hmiget⟩ := find?_findIdx room.players (fun p => p.id == pid) player hfind
  set mi := room.players.findIdx (fun p => p.id == pid) with hmidef
  set d := desiredIndexOf (player.tokens.getD tid.toNat default).position room.dice cpos with hd
  set cm := commitMove room mi player tid.toNat (g.getPath player.color).length d with hcm
  have hcmp : cm.1.players[mi]? = some cm.2 := by
    rw [commitMove_fst_players]
    rw [List.getElem?_set_self]
    omega
  have hcol : cm.2.color = player.color := commitMove_snd_color _ _ _ _ _ _
  rcases killPhase_cases g cm.1 player.color d with hk | hk
  · refine ⟨cm.2, ?_, commitMove_snd_tokens _ _ _ _ _ _, hcol⟩
    rw [hk]
    exact hcmp
  · refine ⟨cm.2, ?_, commitMove_snd_tokens _ _ _ _ _ _, hcol⟩
    rw [hk]
    rw [killPlayersAux_get player.color (cellAt (g.getPath player.color) d) g.getPath
      cm.1.players false mi cm.2 hcmp]
    rw [if_pos (by simp [hcol])]

/-- Destination from base on a six is index 0. -/
theorem desiredIndexOf_base6 (cpos : Option Int) : desiredIndexOf (-1) 6 cpos = 0 := by
  simp [desiredIndexOf]

/-- Destination from base without a six falls back to the client value. -/
theorem desiredIndexOf_base_fallback (dice : Int) (hd : dice ≠ 6) (q : Int) :
    desiredIndexOf (-1) dice (some q) = q := by
  simp [desiredIndexOf, hd]

/-- Destination from base without a six and without a client value stays -1. -/
theorem desiredIndexOf_base_none (dice : Int) (hd : dice ≠ 6) :
    desiredIndexOf (-1) dice none = -1 := by
  simp [desiredIndexOf, hd]

/-- Destination from the board is the previous position plus the dice. -/
theorem desiredIndexOf_board (p dice : Int) (hp : 0 ≤ p) (cpos : Option Int) :
    desiredIndexOf p dice cpos = p + dice := by
  have hne : (p == -1) = false := by
    simp only [beq_eq_false_iff_ne, ne_eq]
    omega
  simp [desiredIndexOf, hne, hp]

/-- getD after an in-range set reads the written element. -/
theorem getD_set_self {α : Type} (l : List α) (i : Nat) (a d : α) (h : i < l.length) :
    (l.set i a).getD i d = a := by
  rw [List.getD_eq_getElem?_getD, List.getElem?_set_self h]
  rfl

/-- Claim C1, counterexample to the claim as stated: in exRoomC1 player a's
token 0 is in base and the dice is 3; the spec says such a move is rejected
with the token unchanged, but the call is accepted (no error) and the token's
position becomes the client-supplied value 5. -/
theorem baseEntry_client_fallback_counterexample :
    exRoomC1.dice = 3 ∧
    ((exRoomC1.players.getD 0 default).tokens.getD 0 default).position = -1 ∧
    (updateTokenPosition exG exRoomC1 "a" 0 (some 5)).2 = none ∧
    (((updateTokenPosition exG exRoomC1 "a" 0 (some 5)).1.players.getD 0
        default).tokens.getD 0 default).position = 5 :=
  ⟨rfl, rfl, rfl, rfl⟩

/-- Claim C1 (amended): for a token-move on a token at base, when the dice is
6 the move is accepted with destination path index 0, ignoring the client
position; when the dice is not 6 and the client supplies a numeric position,
the server falls back to that value as the destination, accepting it whenever
it does not exceed the last path index and rejecting with the exact-roll
error otherwise; when the dice is not 6 and no numeric position is supplied
the move is accepted with the position left at -1. -/
theorem baseEntry_destination (g : Geometry) (room : Room) (pid : String)
    (tid : Int) (cpos : Option Int) (player cp : Player)
    (hfind : room.players.find? (fun p => p.id == pid) = some player)
    (hcp : room.players[room.turnIndex]? = some cp)
    (hturn : cp.id = pid)
    (hawait : room.awaitingMove = true)
    (htid0 : 0 ≤ tid) (htid1 : tid < (player.tokens.length : Int))
    (hbase : (player.tokens.getD tid.toNat default).position = -1)
    (hnf : (player.tokens.getD tid.toNat default).isFinished = false)
    (hpath : g.getPath player.color ≠ []) :
    (room.dice = 6 →
      (updateTokenPosition g room pid tid cpos).2 = none ∧
      ∃ p1, (updateTokenPosition g room pid tid cpos).1.players[room.players.findIdx
          (fun p => p.id == pid)]? = some p1 ∧
        (p1.tokens.getD tid.toNat default).position = 0) ∧
    (room.dice ≠ 6 →
      (∀ q : Int, cpos = some q →
        (q ≤ ((g.getPath player.color).length : Int) - 1 →
          (updateTokenPosition g room pid tid cpos).2 = none ∧
          ∃ p1, (updateTokenPosition g room pid tid cpos).1.players[room.players.findIdx
              (fun p => p.id == pid)]? = some p1 ∧
            (p1.tokens.getD tid.toNat default).position = q) ∧
        (q > ((g.getPath player.color).length : Int) - 1 →
          updateTokenPosition g room pid tid cpos =
            (room, some "Invalid move: must roll exact number to enter home"))) ∧
      (cpos = none →
        (updateTokenPosition g room pid tid cpos).2 = none ∧
        ∃ p1, (updateTokenPosition g room pid tid cpos).1.players[room.players.findIdx
            (fun p => p.id == pid)]? = some p1 ∧
          (p1.tokens.getD tid.toNat default).position = -1)) := by
  have hnb : ¬(cpos = some (-1) ∧ 0 ≤ (player.tokens.getD tid.toNat default).position) := by
    rintro ⟨_, h0⟩
    rw [hbase] at h0
    omega
  have hti : tid.toNat < player.tokens.length := by omega
  have hlen : 1 ≤ (g.getPath player.color).length := by
    cases hgp : g.getPath player.color with
    | nil => exact absurd hgp hpath
    | cons x xs => simp [hgp]
  refine ⟨?_, ?_⟩
  · intro h6
    have hd : desiredIndexOf (player.tokens.getD tid.toNat default).position room.dice cpos = 0 := by
      rw [hbase, h6, desiredIndexOf_base6]
    obtain ⟨h2, p1, hp1, htoks, _⟩ := updateTokenPosition_accept g room pid tid cpos player cp
      hfind hcp hturn hawait htid0 htid1 hnf hnb (by rw [hd]; omega)
    refine ⟨h2, p1, hp1, ?_⟩
    rw [htoks, getD_set_self _ _ _ _ hti, committedToken_position, hd]
  · intro h6
    refine ⟨?_, ?_⟩
    · intro q hq
      have hd : desiredIndexOf (player.tokens.getD tid.toNat default).position room.dice cpos = q := by
        rw [hbase, hq, desiredIndexOf_base_fallback room.dice h6]
      refine ⟨?_, ?_⟩
      · intro hle
        obtain ⟨h2, p1, hp1, htoks, _⟩ := updateTokenPosition_accept g room pid tid cpos player cp
          hfind hcp hturn hawait htid0 htid1 hnf hnb (by rw [hd]; exact hle)
        refine ⟨h2, p1, hp1, ?_⟩
        rw [htoks, getD_set_self _ _ _ _ hti, committedToken_position, hd]
      · intro hover
        exact updateTokenPosition_overshoot g room pid tid cpos player cp
          hfind hcp hturn hawait htid0 htid1 hnf hnb (by rw [hd]; exact hover)
    · intro hq
      have hd : desiredIndexOf (player.tokens.getD tid.toNat default).position room.dice cpos = -1 := by
        rw [hbase, hq, desiredIndexOf_base_none room.dice h6]
      obtain ⟨h2, p1, hp1, htoks, _⟩ := updateTokenPosition_accept g room pid tid cpos player cp
        hfind hcp hturn hawait htid0 htid1 hnf hnb (by rw [hd]; omega)
      refine ⟨h2, p1, hp1, ?_⟩
      rw [htoks, getD_set_self _ _ _ _ hti, committedToken_position, hd]

/-- Witness for the amended claim C1, applying it to exRoomC1 (dice 3, token
in base, client position 5 within the path). -/
theorem baseEntry_destination_witness :
    (updateTokenPosition exG exRoomC1 "a" 0 (some 5)).2 = none := by
  have h := baseEntry_destination exG exRoomC1 "a" 0 (some 5) exPA exPA
    rfl rfl rfl rfl (by decide) (by decide) rfl rfl (by decide)
  exact (((h.2 (by decide)).1 5 rfl).1 (by decide)).1

/-- Claim C2: whenever updateTokenPosition reaches the destination check with
a server-computed destination (previous position plus dice from the board,
or 0 entering from base on a six) that exceeds the last path index, the move
is rejected with the exact-roll error and the returned room is exactly the
input room — position, finished flag, moveValidated and every other field
unchanged. -/
theorem exactRoll_reject_unchanged (g : Geometry) (room : Room) (pid : String)
    (tid : Int) (cpos : Option Int) (player cp : Player)
    (hfind : room.players.find? (fun p => p.id == pid) = some player)
    (hcp : room.players[room.turnIndex]? = some cp)
    (hturn : cp.id = pid)
    (hawait : room.awaitingMove = true)
    (htid0 : 0 ≤ tid) (htid1 : tid < (player.tokens.length : Int))
    (hnf : (player.tokens.getD tid.toNat default).isFinished = false)
    (hnb : ¬(cpos = some (-1) ∧ 0 ≤ (player.tokens.getD tid.toNat default).position))
    (hsrv : 0 ≤ (player.tokens.getD tid.toNat default).position ∨
      ((player.tokens.getD tid.toNat default).position = -1 ∧ room.dice = 6))
    (hover : (if 0 ≤ (player.tokens.getD tid.toNat default).position then
        (player.tokens.getD tid.toNat default).position + room.dice else 0) >
      ((g.getPath player.color).length : Int) - 1) :
    updateTokenPosition g room pid tid cpos =
      (room, some "Invalid move: must roll exact number to enter home") := by
  have hd : desiredIndexOf (player.tokens.getD tid.toNat default).position room.dice cpos =
      (if 0 ≤ (player.tokens.getD tid.toNat default).position then
        (player.tokens.getD tid.toNat default).position + room.dice else 0) := by
    rcases hsrv with hp | ⟨hp, h6⟩
    · rw [if_pos hp, desiredIndexOf_board _ _ hp]
    · rw [hp, h6, desiredIndexOf_base6, if_neg (by omega)]
  exact updateTokenPosition_overshoot g room pid tid cpos player cp
    hfind hcp hturn hawait htid0 htid1 hnf hnb (by rw [hd]; exact hover)

/-- Witness for claim C2, applying it to exRoomC2: a token at index 13 of a
15-cell path with a dice of 3 overshoots and the room is unchanged. -/
theorem exactRoll_reject_unchanged_witness :
    updateTokenPosition exG exRoomC2 "a" 0 (some 16) =
      (exRoomC2, some "Invalid move: must roll exact number to enter home") := by
  have h := exactRoll_reject_unchanged exG exRoomC2 "a" 0 (some 16)
    { exPA with tokens := [⟨13, false⟩, baseToken, baseToken, baseToken] }
    { exPA with tokens := [⟨13, false⟩, baseToken, baseToken, baseToken] }
    rfl rfl rfl rfl (by decide) (by decide) rfl (by decide) (by decide) (by decide)
  exact h

/-- Case analysis of rollDice's effect on the player list: either the call is
rejected (list unchanged) or exactly the current player's slot is rewritten
by a player value with the same token list (only the consecutive-six counter
changes). -/
theorem rollDice_players_cases (room : Room) (sid : String) (d : Int) :
    (rollDice room sid d).players = room.players ∨
    ∃ cp X, room.players[room.turnIndex]? = some cp ∧ X.tokens = cp.tokens ∧
      (rollDice room sid d).players = room.players.set room.turnIndex X := by
  cases hr : room.isRolling with
  | true => left; simp [rollDice, hr]
  | false =>
    cases hlook : room.players[room.turnIndex]? with
    | none => left; simp [rollDice, hr, hlook]
    | some cp =>
      cases hid : (cp.id != sid) with
      | true => left; simp [rollDice, hr, hlook, hid]
      | false =>
        simp only [rollDice, hr, Bool.false_eq_true, if_false, hlook, hid]
        split_ifs <;> right
        · exact ⟨cp, { cp with consecutiveSixes := 0 }, rfl, rfl, rfl⟩
        · exact ⟨cp, { cp with consecutiveSixes := 0 }, rfl, rfl, rfl⟩
        · exact ⟨cp, { cp with consecutiveSixes := cp.consecutiveSixes + 1 }, rfl, rfl, rfl⟩
        · exact ⟨cp, { cp with consecutiveSixes := 0 }, rfl, rfl, rfl⟩

/-- The turn-logic block only rewrites turn bookkeeping, never the player
list. -/
theorem moveDoneTurn_players (r : Room) (cf ne6 : Bool) :
    (moveDoneTurn r cf ne6).players = r.players := by
  simp only [moveDoneTurn]
  split_ifs <;> first | rfl | (split <;> rfl)

/-- moveDone never rewrites the player list: only turn bookkeeping and the
game-ended fields change. -/
theorem moveDone_players (room : Room) (pid : String) (tid : Option Int) (ne6 : Bool) :
    (moveDone room pid tid ne6).1.players = room.players := by
  cases haw : room.awaitingMove with
  | false => simp [moveDone, haw]
  | true =>
    cases hlook : room.players[room.turnIndex]? with
    | none => simp [moveDone, haw, hlook]
    | some cp =>
      cases hid : (cp.id != pid) with
      | true => simp [moveDone, haw, hlook, hid]
      | false =>
        simp only [moveDone, haw, hlook, hid, Bool.false_eq_true, if_false,
          Bool.not_true, if_true]
        split_ifs with hv
        · rfl
        · cases hcw : checkWinCondition (moveDoneTurn { room with awaitingMove := false }
            (allTokensFinished cp) ne6) with
          | none => simp [moveDoneTurn_players]
          | some ws => simp [moveDoneTurn_players]

/-- Claim C3: once a token is finished it never changes again under any room
operation. A token-move call leaves every finished token's position and flag
intact (the mover's own finished tokens are never the committed slot, and the
kill check skips finished tokens), rollDice never touches token lists,
moveDone never touches the player list at all, and addressing a finished
token directly is rejected with the dedicated error and an unchanged room. -/
theorem finished_token_immutable (g : Geometry) (room : Room) :
    (∀ (pid : String) (tid : Int) (cpos : Option Int) (i j : Nat) (p : Player) (t : Token),
      room.players[i]? = some p → p.tokens[j]? = some t → t.isFinished = true →
      ∃ p2, (updateTokenPosition g room pid tid cpos).1.players[i]? = some p2 ∧
        p2.tokens[j]? = some t) ∧
    (∀ (sid : String) (d : Int) (i : Nat) (p : Player),
      room.players[i]? = some p →
      ∃ p2, (rollDice room sid d).players[i]? = some p2 ∧ p2.tokens = p.tokens) ∧
    (∀ (pid : String) (tid : Option Int) (ne6 : Bool),
      (moveDone room pid tid ne6).1.players = room.players) ∧
    (∀ (pid : String) (tid : Int) (cpos : Option Int) (player cp : Player),
      room.players.find? (fun p => p.id == pid) = some player →
      room.players[room.turnIndex]? = some cp →
      cp.id = pid →
      room.awaitingMove = true →
      0 ≤ tid → tid < (player.tokens.length : Int) →
      (player.tokens.getD tid.toNat default).isFinished = true →
      updateTokenPosition g room pid tid cpos =
        (room, some "This token has already finished and cannot be moved.")) := by
  refine ⟨?_, ?_, ?_, ?_⟩
  · intro pid tid cpos i j p t hip hjt hfin
    rcases updateTokenPosition_cases g room pid tid cpos with hcase | ⟨player, hfind, hnf, hres⟩
    · exact ⟨p, by rw [hcase]; exact hip, hjt⟩
    · rw [hres]
      obtain ⟨hmi, hmig⟩ := find?_findIdx room.players (fun q => q.id == pid) player hfind
      have hstep : ∃ pm, (commitMove room (room.players.findIdx (fun q => q.id == pid)) player
          tid.toNat (g.getPath player.color).length
          (desiredIndexOf (player.tokens.getD tid.toNat default).position room.dice cpos)).1.players[i]? =
            some pm ∧ pm.tokens[j]? = some t ∧ pm.color = p.color := by
        by_cases hieq : i = room.players.findIdx (fun q => q.id == pid)
        · subst hieq
          rw [hip] at hmig
          obtain rfl := Option.some.inj hmig
          refine ⟨(commitMove room (room.players.findIdx (fun q => q.id == pid)) p tid.toNat
              (g.getPath p.color).length
              (desiredIndexOf (p.tokens.getD tid.toNat default).position room.dice cpos)).2,
            ?_, ?_, commitMove_snd_color _ _ _ _ _ _⟩
          · rw [commitMove_fst_players, List.getElem?_set_self]
            omega
          · rw [commitMove_snd_tokens]
            have hji : tid.toNat ≠ j := by
              intro he
              subst he
              have hgd : p.tokens.getD tid.toNat default = t := by
                simp [List.getD_eq_getElem?_getD, hjt]
              rw [hgd, hfin] at hnf
              simp at hnf
            rw [List.getElem?_set_ne hji]
            exact hjt
        · refine ⟨p, ?_, hjt, rfl⟩
          rw [commitMove_fst_players, List.getElem?_set_ne (fun he => hieq he.symm)]
          exact hip
      obtain ⟨pm, hpm, hpmt, hpmc⟩ := hstep
      rcases killPhase_cases g _ player.color
        (desiredIndexOf (player.tokens.getD tid.toNat default).position room.dice cpos) with hk | hk
      · rw [hk]
        exact ⟨pm, hpm, hpmt⟩
      · rw [hk, killPlayersAux_get player.color _ g.getPath _ false i pm hpm]
        cases hc : (pm.color == player.color) with
        | true => exact ⟨pm, by simp, hpmt⟩
        | false =>
          refine ⟨{ pm with tokens := (killTokensAux (g.getPath pm.color)
              (cellAt (g.getPath player.color)
                (desiredIndexOf (player.tokens.getD tid.toNat default).position room.dice cpos))
              (List.range pm.tokens.length) pm.tokens false).1 }, by simp, ?_⟩
          exact killTokensAux_preserves_protected (g.getPath pm.color) _
            (List.range pm.tokens.length) pm.tokens false j t hpmt (Or.inr hfin)
  · intro sid d i p hip
    rcases rollDice_players_cases room sid d with hc | ⟨cp, X, hlook, hXt, hc⟩
    · exact ⟨p, by rw [hc]; exact hip, rfl⟩
    · by_cases hieq : i = room.turnIndex
      · subst hieq
        rw [hlook] at hip
        obtain rfl := Option.some.inj hip
        have hlt : room.turnIndex < room.players.length := by
          rw [List.getElem?_eq_some_iff] at hlook
          exact hlook.1
        exact ⟨X, by rw [hc, List.getElem?_set_self hlt], hXt⟩
      · exact ⟨p, by rw [hc, List.getElem?_set_ne (fun he => hieq he.symm)]; exact hip, rfl⟩
  · intro pid tid ne6
    exact moveDone_players room pid tid ne6
  · intro pid tid cpos player cp hfind hcp hturn hawait htid0 htid1 hfin
    have hb1 : (cp.id != pid) = false := by simp [hturn]
    have hb2 : (!(decide (0 ≤ tid) && decide (tid < (player.tokens.length : Int)))) = false := by
      simp [htid0, htid1]
    simp only [updateTokenPosition, hfind, hcp, hb1, hawait, hb2, hfin,
      Bool.not_true, Bool.false_eq_true, if_false, Bool.not_false, Bool.true_eq_false,
      if_true]

/-- Witness for claim C3, applying it to exRoomC3 whose current player has
finished all tokens: moving token 0 is rejected with the dedicated error, and
the finished token survives a foreign move call untouched. -/
theorem finished_token_immutable_witness :
    updateTokenPosition exG exRoomC3 "a" 0 (some 5) =
      (exRoomC3, some "This token has already finished and cannot be moved.") := by
  exact (finished_token_immutable exG exRoomC3).2.2.2 "a" 0 (some 5) exPAFin exPAFin
    rfl rfl rfl rfl (by decide) (by decide) rfl

/-- Adding one modulo a length of at least two never returns to the same
index. -/
theorem succ_mod_ne (t len : Nat) (h2 : 2 ≤ len) : (t + 1) % len ≠ t := by
  intro he
  rcases Nat.lt_or_ge (t + 1) len with hlt | hge
  · rw [Nat.mod_eq_of_lt hlt] at he
    omega
  · have hm : (t + 1) % len < len := Nat.mod_lt _ (by omega)
    rw [he] at hm
    have hone : t + 1 = len := by omega
    rw [hone, Nat.mod_self] at he
    omega

/-- Unfolding of the three-six penalty branch of rollDice: when the current
player rolls a third consecutive six, the dice is stored, the move window is
closed again, the counter resets, and the turn index advances by one modulo
the turn-order length. -/
theorem rollDice_penalty (room : Room) (sid : String) (cp : Player)
    (hr : room.isRolling = false)
    (hlook : room.players[room.turnIndex]? = some cp)
    (hid : cp.id = sid)
    (hsix : 2 ≤ cp.consecutiveSixes) :
    rollDice room sid 6 =
      { room with
        players := room.players.set room.turnIndex { cp with consecutiveSixes := 0 },
        dice := 6, awaitingMove := false, moveValidated := false, isRolling := false,
        turnIndex := (room.turnIndex + 1) %
          (if room.turnOrder.length != 0 then room.turnOrder.length
            else room.players.length) } := by
  have hb : (cp.id != sid) = false := by simp [hid]
  simp only [rollDice, hr, Bool.false_eq_true, if_false, hlook, hb]
  rw [if_pos (by omega : 3 ≤ cp.consecutiveSixes + 1)]
  rw [if_pos (show ((6 : Int) == 6) = true from rfl)]

/-- Claim C4: when a roll of 6 raises the roller's consecutive-six counter to
three, the roll yields no move opportunity — awaitingMove ends false and any
token-move call on the resulting room leaves it unchanged — the counter
resets to 0, and the turn index advances immediately by one modulo the
turn-order length (a different player whenever that length is at least 2). -/
theorem threeSix_penalty (g : Geometry) (room : Room) (sid : String) (cp : Player)
    (hr : room.isRolling = false)
    (hlook : room.players[room.turnIndex]? = some cp)
    (hid : cp.id = sid)
    (hsix : 2 ≤ cp.consecutiveSixes) :
    (rollDice room sid 6).awaitingMove = false ∧
    (rollDice room sid 6).players[room.turnIndex]? =
      some { cp with consecutiveSixes := 0 } ∧
    (rollDice room sid 6).turnIndex = (room.turnIndex + 1) %
      (if room.turnOrder.length != 0 then room.turnOrder.length
        else room.players.length) ∧
    (2 ≤ (if room.turnOrder.length != 0 then room.turnOrder.length
        else room.players.length) →
      (rollDice room sid 6).turnIndex ≠ room.turnIndex) ∧
    (∀ (pid : String) (tid : Int) (cpos : Option Int),
      (updateTokenPosition g (rollDice room sid 6) pid tid cpos).1 = rollDice room sid 6) := by
  have hlt : room.turnIndex < room.players.length := by
    rw [List.getElem?_eq_some_iff] at hlook
    exact hlook.1
  rw [rollDice_penalty room sid cp hr hlook hid hsix]
  refine ⟨rfl, ?_, rfl, ?_, ?_⟩
  · exact List.getElem?_set_self hlt
  · intro h2
    exact succ_mod_ne room.turnIndex _ h2
  · intro pid tid cpos
    exact updateTokenPosition_not_awaiting g _ pid tid cpos rfl

/-- Witness for claim C4, applying it to exRoomC4 where player a has rolled
two consecutive sixes and rolls a third. -/
theorem threeSix_penalty_witness :
    (rollDice exRoomC4 "a" 6).awaitingMove = false ∧
    (rollDice exRoomC4 "a" 6).turnIndex = 1 := by
  have h := threeSix_penalty exG exRoomC4 "a" { exPA with consecutiveSixes := 2 }
    rfl rfl rfl (by decide)
  exact ⟨h.1, h.2.2.1.trans rfl⟩

/-- Claim C10: the three-six penalty advances the turn by exactly one modulo
the turn-order length, with no skipping of players whose tokens are all
finished — concretely, in exRoomC10 the penalty hands the turn to player b,
every one of whose tokens is finished, while player a still has unfinished
tokens. -/
theorem threeSix_penalty_plain_advance (room : Room) (sid : String) (cp : Player)
    (hr : room.isRolling = false)
    (hlook : room.players[room.turnIndex]? = some cp)
    (hid : cp.id = sid)
    (hsix : 2 ≤ cp.consecutiveSixes) :
    (rollDice room sid 6).turnIndex = (room.turnIndex + 1) %
      (if room.turnOrder.length != 0 then room.turnOrder.length
        else room.players.length) ∧
    ((rollDice exRoomC10 "a" 6).turnIndex = 1 ∧
      allTokensFinished ((rollDice exRoomC10 "a" 6).players.getD 1 default) = true ∧
      allTokensFinished ((rollDice exRoomC10 "a" 6).players.getD 0 default) = false) := by
  constructor
  · rw [rollDice_penalty room sid cp hr hlook hid hsix]
  · exact ⟨rfl, rfl, rfl⟩

/-- Witness for claim C10, applying it to exRoomC10. -/
theorem threeSix_penalty_plain_advance_witness :
    (rollDice exRoomC10 "a" 6).turnIndex = 1 := by
  have h := threeSix_penalty_plain_advance exRoomC10 "a" { exPA with consecutiveSixes := 2 }
    rfl rfl rfl (by decide)
  exact h.2.1

/-- Common first step for the capture-exemption claims: after an arbitrary
updateTokenPosition call, an opposing player's slot still holds a player
whose token list is either untouched or the inner kill loop's output on its
own tokens. -/
theorem updateTokenPosition_enemy_cases (g : Geometry) (room : Room) (pid : String)
    (tid : Int) (cpos : Option Int) (mover : Player)
    (hfind : room.players.find? (fun p => p.id == pid) = some mover)
    (i : Nat) (enemy : Player)
    (henemy : room.players[i]? = some enemy)
    (hcol : enemy.color ≠ mover.color) :
    (updateTokenPosition g room pid tid cpos).1.players[i]? = some enemy ∨
    ((updateTokenPosition g room pid tid cpos).1.players[i]? =
      some { enemy with tokens :=
        (killTokensAux (g.getPath enemy.color)
          (cellAt (g.getPath mover.color)
            (desiredIndexOf (mover.tokens.getD tid.toNat default).position room.dice cpos))
          (List.range enemy.tokens.length) enemy.tokens false).1 }) := by
  rcases updateTokenPosition_cases g room pid tid cpos with hcase | ⟨player, hfind2, hnf, hres⟩
  · left
    rw [hcase]
    exact henemy
  · rw [hfind2] at hfind
    obtain rfl := Option.some.inj hfind
    obtain ⟨hmi, hmig⟩ := find?_findIdx room.players (fun q => q.id == pid) player hfind2
    have hine : i ≠ room.players.findIdx (fun q => q.id == pid) := by
      intro he
      rw [he, hmig] at henemy
      obtain rfl := Option.some.inj henemy
      exact hcol rfl
    have hcm : (commitMove room (room.players.findIdx (fun q => q.id == pid)) player
        tid.toNat (g.getPath player.color).length
        (desiredIndexOf (player.tokens.getD tid.toNat default).position room.dice
          cpos)).1.players[i]? = some enemy := by
      rw [commitMove_fst_players, List.getElem?_set_ne (fun he => hine he.symm)]
      exact henemy
    rw [hres]
    rcases killPhase_cases g _ player.color
      (desiredIndexOf (player.tokens.getD tid.toNat default).position room.dice cpos) with hk | hk
    · left
      rw [hk]
      exact hcm
    · rw [hk, killPlayersAux_get player.color _ g.getPath _ false i enemy hcm]
      right
      rw [if_neg (by simp [hcol])]

/-- Claim C6: for every accepted move, an opposing token is left untouched by
the capture check — same position, same finished flag — whenever the landed
cell is in the safe-cell set, or the mover landed inside the final six
indices of its own path, or the opponent has two or more tokens stacked on
that token's exact position. -/
theorem capture_exemptions (g : Geometry) (room : Room) (pid : String)
    (tid : Int) (cpos : Option Int) (mover : Player)
    (hfind : room.players.find? (fun p => p.id == pid) = some mover)
    (i j : Nat) (enemy : Player) (etok : Token)
    (henemy : room.players[i]? = some enemy)
    (hcol : enemy.color ≠ mover.color)
    (hetok : enemy.tokens[j]? = some etok)
    (haccept : (updateTokenPosition g room pid tid cpos).2 = none)
    (hcond :
      (∃ c, cellAt (g.getPath mover.color)
          (desiredIndexOf (mover.tokens.getD tid.toNat default).position room.dice cpos) =
            some c ∧ g.safeCells.contains c = true) ∨
      ((g.getPath mover.color).length : Int) - 6 ≤
        desiredIndexOf (mover.tokens.getD tid.toNat default).position room.dice cpos ∨
      2 ≤ stackCount enemy.tokens etok.position) :
    ∃ p2, (updateTokenPosition g room pid tid cpos).1.players[i]? = some p2 ∧
      p2.tokens[j]? = some etok := by
  rcases updateTokenPosition_cases g room pid tid cpos with hcase | ⟨player, hfind2, hnf, hres⟩
  · exact ⟨enemy, by rw [hcase]; exact henemy, hetok⟩
  · rw [hfind2] at hfind
    obtain rfl := Option.some.inj hfind
    obtain ⟨hmi, hmig⟩ := find?_findIdx room.players (fun q => q.id == pid) player hfind2
    have hine : i ≠ room.players.findIdx (fun q => q.id == pid) := by
      intro he
      rw [he, hmig] at henemy
      obtain rfl := Option.some.inj henemy
      exact hcol rfl
    have hcm : (commitMove room (room.players.findIdx (fun q => q.id == pid)) player
        tid.toNat (g.getPath player.color).length
        (desiredIndexOf (player.tokens.getD tid.toNat default).position room.dice
          cpos)).1.players[i]? = some enemy := by
      rw [commitMove_fst_players, List.getElem?_set_ne (fun he => hine he.symm)]
      exact henemy
    rw [hres]
    rcases hcond with hsafe | hhome | hstack
    · rw [killPhase_skip g _ player.color _ (Or.inl hsafe)]
      exact ⟨enemy, hcm, hetok⟩
    · rw [killPhase_skip g _ player.color _ (Or.inr hhome)]
      exact ⟨enemy, hcm, hetok⟩
    · rcases killPhase_cases g _ player.color
        (desiredIndexOf (player.tokens.getD tid.toNat default).position room.dice cpos) with hk | hk
      · rw [hk]
        exact ⟨enemy, hcm, hetok⟩
      · rw [hk, killPlayersAux_get player.color _ g.getPath _ false i enemy hcm,
          if_neg (by simp [hcol])]
        refine ⟨_, rfl, ?_⟩
        exact killTokensAux_preserves_stacked (g.getPath enemy.color) _ etok.position
          (List.range enemy.tokens.length) enemy.tokens false hstack j etok hetok rfl

/-- Witness for claim C6, applying it to exRoomC6: the blue mover lands on
index 9 of its 15-cell path (inside its final six cells), so the green token
at index 1 is untouched. -/
theorem capture_exemptions_witness :
    ∃ p2, (updateTokenPosition exG exRoomC6 "a" 0 none).1.players[1]? = some p2 ∧
      p2.tokens[0]? = some ⟨1, false⟩ := by
  exact capture_exemptions exG exRoomC6 "a" 0 none
    { exPA with tokens := [⟨6, false⟩, baseToken, baseToken, baseToken] } rfl
    1 0 { exPB with tokens := [⟨1, false⟩, baseToken, baseToken, baseToken] } ⟨1, false⟩
    rfl (by decide) rfl rfl (Or.inr (Or.inl (by decide)))

/-- Claim C9 (implicit): the capture check also never touches an opposing
token that is inside its own home stretch — position at or past its own path
length minus six — or already finished: for every updateTokenPosition call,
such a token keeps its position and finished flag, even on a shared non-safe
cell with no stack. -/
theorem capture_skips_enemy_home (g : Geometry) (room : Room) (pid : String)
    (tid : Int) (cpos : Option Int) (mover : Player)
    (hfind : room.players.find? (fun p => p.id == pid) = some mover)
    (i j : Nat) (enemy : Player) (etok : Token)
    (henemy : room.players[i]? = some enemy)
    (hcol : enemy.color ≠ mover.color)
    (hetok : enemy.tokens[j]? = some etok)
    (hprot : ((g.getPath enemy.color).length : Int) - 6 ≤ etok.position ∨
      etok.isFinished = true) :
    ∃ p2, (updateTokenPosition g room pid tid cpos).1.players[i]? = some p2 ∧
      p2.tokens[j]? = some etok := by
  rcases updateTokenPosition_enemy_cases g room pid tid cpos mover hfind i enemy henemy hcol
    with hc | hc
  · exact ⟨enemy, hc, hetok⟩
  · refine ⟨_, hc, ?_⟩
    exact killTokensAux_preserves_protected (g.getPath enemy.color) _
      (List.range enemy.tokens.length) enemy.tokens false j etok hetok hprot

/-- Witness for claim C9, applying it to exRoomC9 where the green token sits
at index 9 of its 15-cell path, inside its own home stretch. -/
theorem capture_skips_enemy_home_witness :
    ∃ p2, (updateTokenPosition exG exRoomC9 "a" 0 (some 5)).1.players[1]? = some p2 ∧
      p2.tokens[0]? = some ⟨9, false⟩ := by
  exact capture_skips_enemy_home exG exRoomC9 "a" 0 (some 5) exPA rfl
    1 0 { exPB with tokens := [⟨9, false⟩, baseToken, baseToken, baseToken] } ⟨9, false⟩
    rfl (by decide) rfl (Or.inl (by decide))

/-- The skipping loop finds an unfinished player: if some position reachable
within the fuel holds a player with an unfinished token (and every lookup is
in range), the loop stops at an unfinished player. -/
theorem advanceLoop_unfinished (players : List Player) (len : Nat)
    (hlen : len = players.length) :
    ∀ (fuel s : Nat), s < len →
      (∃ k, k < fuel ∧ ∃ p, players[(s + k) % len]? = some p ∧
        allTokensFinished p = false) →
      ∃ ni p, advanceLoop players len s fuel = some ni ∧ players[ni]? = some p ∧
        allTokensFinished p = false := by
  intro fuel
  induction fuel with
  | zero =>
    rintro s hs ⟨k, hk, _⟩
    omega
  | succ n ih =>
    rintro s hs ⟨k, hk, p, hp, hfp⟩
    cases hq : players[s]? with
    | none =>
      rw [List.getElem?_eq_none_iff] at hq
      omega
    | some q =>
      cases hfq : allTokensFinished q with
      | false =>
        exact ⟨s, q, by simp [advanceLoop, hq, hfq], hq, hfq⟩
      | true =>
        have hk0 : k ≠ 0 := by
          intro he
          subst he
          rw [Nat.add_zero, Nat.mod_eq_of_lt hs, hq] at hp
          obtain rfl := Option.some.inj hp
          rw [hfq] at hfp
          simp at hfp
        cases k with
        | zero => exact absurd rfl hk0
        | succ k0 =>
          have hrec := ih ((s + 1) % len) (Nat.mod_lt _ (by omega))
            ⟨k0, by omega, p, ?_, hfp⟩
          · obtain ⟨ni, p2, he, h2, h3⟩ := hrec
            exact ⟨ni, p2, by simp [advanceLoop, hq, hfq, he], h2, h3⟩
          · have hm : ((s + 1) % len + k0) % len = (s + (k0 + 1)) % len := by
              rw [Nat.mod_add_mod]
              congr 1
              omega
            rw [hm]
            exact hp

/-- Claim C5, counterexample to the claim as stated: in exRoomC5 the current
player has finished all four tokens but holds a stale kill-extra-turn flag;
the completed moveDone retains the turn, so the resulting turnIndex names the
fully finished player while player b still has unfinished tokens. -/
theorem endTurn_unfinished_counterexample :
    (moveDone exRoomC5 "a" none false).2 = true ∧
    (moveDone exRoomC5 "a" none false).1.turnIndex = 0 ∧
    allTokensFinished ((moveDone exRoomC5 "a" none false).1.players.getD 0 default) = true ∧
    allTokensFinished ((moveDone exRoomC5 "a" none false).1.players.getD 1 default) = false :=
  ⟨rfl, rfl, rfl, rfl⟩

/-- Branch analysis of the turn-logic block in a well-formed room: the
resulting turn index names a player with an unfinished token, unless every
player has finished, or the kill-extra-turn branch retained the index
unchecked. The block is a total function, so the source's bounded skipping
loop (mirrored by the fuel of advanceLoop) terminates by construction. -/
theorem moveDoneTurn_cases (r : Room) (cp : Player) (cf ne6 : Bool)
    (hne : r.players ≠ [])
    (hti : r.turnIndex < r.players.length)
    (hto : r.turnOrder = [] ∨ r.turnOrder.length = r.players.length)
    (hcp : r.players[r.turnIndex]? = some cp)
    (hcf : cf = allTokensFinished cp) :
    (∃ p, r.players[(moveDoneTurn r cf ne6).turnIndex]? = some p ∧
      allTokensFinished p = false) ∨
    (∀ p ∈ r.players, allTokensFinished p = true) ∨
    (ne6 = false ∧ r.killExtraTurn = true ∧
      (moveDoneTurn r cf ne6).turnIndex = r.turnIndex) := by
  have hplen : r.players.length ≠ 0 := by
    intro he
    exact hne (List.eq_nil_of_length_eq_zero he)
  by_cases hall : ∀ p ∈ r.players, allTokensFinished p = true
  · exact Or.inr (Or.inl hall)
  · push_neg at hall
    obtain ⟨p0, hp0mem, hp0ne⟩ := hall
    have hp0f : allTokensFinished p0 = false := by
      cases hb : allTokensFinished p0 with
      | true => exact absurd hb hp0ne
      | false => rfl
    rw [List.mem_iff_getElem?] at hp0mem
    obtain ⟨i0, hp0⟩ := hp0mem
    have hi0 : i0 < r.players.length := by
      rw [List.getElem?_eq_some_iff] at hp0
      exact hp0.1
    simp only [moveDoneTurn]
    set len := if (r.turnOrder.length != 0) = true then r.turnOrder.length
      else r.players.length with hlendef
    have hlen : len = r.players.length := by
      rcases hto with h | h
      · simp [hlendef, h]
      · rw [hlendef, h]
        split_ifs <;> rfl
    have hpos : 0 < len := by omega
    have hadv : ∀ s, s < len → ∃ ni q, advanceLoop r.players len s len = some ni ∧
        r.players[ni]? = some q ∧ allTokensFinished q = false := by
      intro s hs
      apply advanceLoop_unfinished r.players len hlen len s hs
      refine ⟨(i0 + len - s) % len, Nat.mod_lt _ (by omega), p0, ?_, hp0f⟩
      have hk1 : (s + (i0 + len - s) % len) % len = (s + (i0 + len - s)) % len := by
        rw [Nat.add_comm s ((i0 + len - s) % len), Nat.mod_add_mod,
          Nat.add_comm (i0 + len - s) s]
      rw [hk1, (by omega : s + (i0 + len - s) = i0 + len), Nat.add_mod_right,
        Nat.mod_eq_of_lt (by omega)]
      exact hp0
    have hs0 : (r.turnIndex + 1) % len < len := Nat.mod_lt _ (by omega)
    split_ifs with h1 h2 h3 h4 h5 h6
    · obtain ⟨ni, q, he, hq, hfq⟩ := hadv ((r.turnIndex + 1) % len) hs0
      rw [he]
      exact Or.inl ⟨q, hq, hfq⟩
    · refine Or.inr (Or.inr ⟨?_, h2, rfl⟩)
      cases ne6 with
      | true => exact absurd rfl h1
      | false => rfl
    · refine Or.inl ⟨cp, hcp, ?_⟩
      rw [hcf.symm]
      cases cf with
      | true => simp at h4
      | false => rfl
    · obtain ⟨ni, q, he, hq, hfq⟩ := hadv ((r.turnIndex + 1) % len) hs0
      rw [he]
      exact Or.inl ⟨q, hq, hfq⟩
    · obtain ⟨ni, q, he, hq, hfq⟩ := hadv ((r.turnIndex + 1) % len) hs0
      rw [he]
      exact Or.inl ⟨q, hq, hfq⟩
    · obtain ⟨ni, q, he, hq, hfq⟩ := hadv ((r.turnIndex + 1) % len) hs0
      rw [he]
      exact Or.inl ⟨q, hq, hfq⟩
    · refine Or.inl ⟨cp, hcp, ?_⟩
      rw [hcf.symm]
      cases cf with
      | true => exact absurd rfl h6
      | false => rfl

/-- Claim C5 (amended): after every completed moveDone on a well-formed room
(nonempty players, in-range turnIndex, turnOrder absent or matching the
player count), the resulting turnIndex names a player with at least one
unfinished token, unless every player has finished all tokens, or the
kill-extra-turn branch fired — that branch retains the current index without
checking whether its player has finished. The advancement loop always
terminates, mirrored here by the bounded fuel of advanceLoop. -/
theorem endTurn_targets_unfinished (room : Room) (pid : String) (tid : Option Int)
    (ne6 : Bool)
    (hne : room.players ≠ [])
    (hti : room.turnIndex < room.players.length)
    (hto : room.turnOrder = [] ∨ room.turnOrder.length = room.players.length)
    (hacc : (moveDone room pid tid ne6).2 = true) :
    (∃ p, (moveDone room pid tid ne6).1.players[(moveDone room pid tid ne6).1.turnIndex]? =
      some p ∧ allTokensFinished p = false) ∨
    (∀ p ∈ room.players, allTokensFinished p = true) ∨
    (ne6 = false ∧ room.killExtraTurn = true ∧
      (moveDone room pid tid ne6).1.turnIndex = room.turnIndex) := by
  cases haw : room.awaitingMove with
  | false =>
    rw [show (moveDone room pid tid ne6) = (room, false) by
      simp [moveDone, haw]] at hacc
    simp at hacc
  | true =>
    cases hlook : room.players[room.turnIndex]? with
    | none =>
      rw [List.getElem?_eq_none_iff] at hlook
      omega
    | some cp =>
      cases hid : (cp.id != pid) with
      | true =>
        rw [show (moveDone room pid tid ne6) = (room, false) by
          simp [moveDone, haw, hlook, hid]] at hacc
        simp at hacc
      | false =>
        have hmain : moveDone room pid tid ne6 = (room, false) ∨
            ((moveDone room pid tid ne6).1.players = room.players ∧
             (moveDone room pid tid ne6).1.turnIndex =
               (moveDoneTurn { room with awaitingMove := false }
                 (allTokensFinished cp) ne6).turnIndex) := by
          simp only [moveDone, haw, hlook, hid, Bool.false_eq_true, if_false,
            Bool.not_true, if_true]
          split_ifs with hv
          · left; rfl
          · right
            cases hcw : checkWinCondition (moveDoneTurn { room with awaitingMove := false }
              (allTokensFinished cp) ne6) with
            | none => exact ⟨moveDoneTurn_players _ _ _, rfl⟩
            | some ws => exact ⟨moveDoneTurn_players _ _ _, rfl⟩
        rcases hmain with hrej | ⟨hpl, hturn⟩
        · rw [hrej] at hacc
          simp at hacc
        · rw [hpl, hturn]
          have := moveDoneTurn_cases { room with awaitingMove := false } cp
            (allTokensFinished cp) ne6 hne hti hto hlook rfl
          rcases this with h | h | ⟨ha, hb, hc⟩
          · exact Or.inl h
          · exact Or.inr (Or.inl h)
          · exact Or.inr (Or.inr ⟨ha, hb, hc⟩)

/-- Witness for the amended claim C5, applying it to exRoomC1, where player
b receives the turn after player a's completed pass on a dice of 3. -/
theorem endTurn_targets_unfinished_witness :
    (∃ p, (moveDone exRoomC1 "a" none false).1.players[(moveDone exRoomC1 "a"
        none false).1.turnIndex]? = some p ∧ allTokensFinished p = false) ∨
    (∀ p ∈ exRoomC1.players, allTokensFinished p = true) ∨
    (false = false ∧ exRoomC1.killExtraTurn = true ∧
      (moveDone exRoomC1 "a" none false).1.turnIndex = exRoomC1.turnIndex) := by
  exact endTurn_targets_unfinished exRoomC1 "a" none false (by decide) (by decide)
    (Or.inr rfl) rfl

/-- The players carried by the win-entry list are exactly the players passing
the finished filter, in order. -/
theorem winEntries_map_player (n : Nat) (l : List Player) :
    (((List.enumFrom n l).map (fun e => WinEntry.mk e.2 e.1)).filter
      (fun e => e.player.tokens.length != 0 &&
        e.player.tokens.all (fun t => t.isFinished))).map (fun e => e.player) =
    l.filter (fun p => p.tokens.length != 0 && p.tokens.all (fun t => t.isFinished)) := by
  induction l generalizing n with
  | nil => rfl
  | cons a t ih =>
    simp only [List.enumFrom, List.map_cons, List.filter_cons]
    cases hpa : (a.tokens.length != 0 && a.tokens.all (fun tk => tk.isFinished)) with
    | true => simp [hpa, ih]
    | false => simp [hpa, ih]

/-- Claim C7: with two to four players each holding four tokens,
checkWinCondition returns a non-null list exactly when the number of players
whose tokens are all finished reaches the room-size threshold (1 of 2, 2 of
3, 3 of 4 — that is, player count minus one); the returned list has exactly
threshold many entries, is sorted by recorded finish position, and contains
only all-finished room members. The embedded function is pure, so the room
is read but never written. -/
theorem checkWin_characterization (room : Room)
    (hcount : room.players.length = 2 ∨ room.players.length = 3 ∨ room.players.length = 4)
    (htok : ∀ p ∈ room.players, p.tokens.length = 4) :
    ((checkWinCondition room).isSome = true ↔
      room.players.length - 1 ≤
        (room.players.filter (fun p => p.tokens.all (fun t => t.isFinished))).length) ∧
    (∀ ws, checkWinCondition room = some ws →
      ws.length = room.players.length - 1 ∧
      List.Sorted winEntryLE ws ∧
      ∀ w ∈ ws, w.player ∈ room.players ∧
        w.player.tokens.all (fun t => t.isFinished) = true) := by
  have hfeq : room.players.filter
      (fun p => p.tokens.length != 0 && p.tokens.all (fun t => t.isFinished)) =
      room.players.filter (fun p => p.tokens.all (fun t => t.isFinished)) := by
    apply List.filter_congr
    intro p hp
    simp [htok p hp]
  have hEmap : ((room.players.enum.map (fun e => WinEntry.mk e.2 e.1)).filter
      (fun e => e.player.tokens.length != 0 &&
        e.player.tokens.all (fun t => t.isFinished))).map (fun e => e.player) =
      room.players.filter (fun p => p.tokens.all (fun t => t.isFinished)) := by
    rw [← hfeq]
    exact winEntries_map_player 0 room.players
  set E := (room.players.enum.map (fun e => WinEntry.mk e.2 e.1)).filter
    (fun e => e.player.tokens.length != 0 &&
      e.player.tokens.all (fun t => t.isFinished)) with hEdef
  have hElen : E.length =
      (room.players.filter (fun p => p.tokens.all (fun t => t.isFinished))).length := by
    rw [← hEmap, List.length_map]
  have hneed : (if (room.players.length == 2) = true then 1
      else if (room.players.length == 3) = true then 2
      else if (room.players.length == 4) = true then 3 else 1) =
      room.players.length - 1 := by
    rcases hcount with h | h | h <;> simp [h]
  have hck : checkWinCondition room =
      (if (E.length == 0) = true then none
       else if room.players.length - 1 ≤ E.length then
         some ((List.insertionSort winEntryLE E).take (room.players.length - 1))
       else none) := by
    simp only [checkWinCondition, ← hEdef]
    rw [hneed]
  have hone : 1 ≤ room.players.length - 1 := by
    rcases hcount with h | h | h <;> omega
  constructor
  · rw [hck, ← hElen]
    split_ifs with hz hn
    · simp only [Option.isSome_none, Bool.false_eq_true, false_iff]
      have hz2 : E.length = 0 := by simpa using hz
      omega
    · simp only [Option.isSome_some, true_iff]
      exact hn
    · simp only [Option.isSome_none, Bool.false_eq_true, false_iff]
      exact hn
  · intro ws hws
    by_cases hz : (E.length == 0) = true
    · rw [hck, if_pos hz] at hws
      cases hws
    by_cases hn : room.players.length - 1 ≤ E.length
    swap
    · rw [hck, if_neg hz, if_neg hn] at hws
      cases hws
    · rw [hck, if_neg hz, if_pos hn] at hws
      obtain rfl := Option.some.inj hws
      refine ⟨?_, ?_, ?_⟩
      · rw [List.length_take, (List.perm_insertionSort winEntryLE E).length_eq]
        omega
      · exact List.Pairwise.sublist (List.take_sublist _ _)
          (List.sorted_insertionSort winEntryLE E)
      · intro w hw
        have hwE : w ∈ E :=
          ((List.perm_insertionSort winEntryLE E).mem_iff).1
            (List.take_subset _ _ hw)
        have hwp : w.player ∈
            room.players.filter (fun p => p.tokens.all (fun t => t.isFinished)) := by
          rw [← hEmap]
          exact List.mem_map_of_mem (fun e => e.player) hwE
        rw [List.mem_filter] at hwp
        exact hwp

/-- Witness for claim C7, applying it to exRoomC3 where one of the two
players has finished all four tokens. -/
theorem checkWin_characterization_witness :
    (checkWinCondition exRoomC3).isSome = true := by
  have h := checkWin_characterization exRoomC3 (Or.inl rfl) (by decide)
  exact h.1.mpr (by decide)

/-- Claim C8, counterexample to the claim as stated: reporting the only
match of exTournament's round with a first-place winner completes the round
with one collected winner (at most 4); the tournamentFinished event fires,
but the tournament's stored status does not become finished — it stays
in_progress. -/
theorem tournament_finish_status_counterexample :
    (reportMatchResult exTournament "m1" [⟨1, "p1"⟩, ⟨2, "p2"⟩]).1.status = "in_progress" ∧
    (reportMatchResult exTournament "m1" [⟨1, "p1"⟩, ⟨2, "p2"⟩]).1.status ≠ "finished" ∧
    (reportMatchResult exTournament "m1" [⟨1, "p1"⟩, ⟨2, "p2"⟩]).2 =
      [TEvent.tournamentFinished ["p1"],
       TEvent.reportResultAck "m1" "Tournament complete!"] :=
  ⟨rfl, by decide, rfl⟩

/-- Claim C8 (amended): in reportMatchResult, when after recording the report
every match-record of the current round is finished and the collected
first-place winners number between one and four, a tournamentFinished event
carrying all collected winners is emitted and no next-round match-records
are created — the match list keeps its length, only the reported match's
result and status changing — while the tournament's stored status is left
untouched (it is never set to finished). -/
theorem tournament_final_round (t : Tournament) (matchId : String)
    (placements : List Placement) (m0 : MatchRec)
    (hfind : t.matchList.find? (fun m => m.id == matchId) = some m0)
    (hall : (roundMatches t matchId placements m0.round_number).all
      (fun m => m.status == "finished") = true)
    (hw1 : collectWinners (roundMatches t matchId placements m0.round_number) ≠ [])
    (hw4 : (collectWinners (roundMatches t matchId placements m0.round_number)).length ≤ 4) :
    reportMatchResult t matchId placements =
      ({ t with matchList := updatedMatches t matchId placements },
       [TEvent.tournamentFinished
          (collectWinners (roundMatches t matchId placements m0.round_number)),
        TEvent.reportResultAck matchId "Tournament complete!"]) ∧
    (reportMatchResult t matchId placements).1.status = t.status ∧
    (reportMatchResult t matchId placements).1.matchList.length = t.matchList.length := by
  have hz : ((collectWinners (roundMatches t matchId placements m0.round_number)).length
      == 0) = false := by
    have : collectWinners (roundMatches t matchId placements m0.round_number) ≠ [] := hw1
    simp only [beq_eq_false_iff_ne, ne_eq]
    intro he
    exact this (List.eq_nil_of_length_eq_zero he)
  have hmain : reportMatchResult t matchId placements =
      ({ t with matchList := updatedMatches t matchId placements },
       [TEvent.tournamentFinished
          (collectWinners (roundMatches t matchId placements m0.round_number)),
        TEvent.reportResultAck matchId "Tournament complete!"]) := by
    simp only [reportMatchResult, hfind]
    rw [hall]
    simp only [Bool.not_true, Bool.false_eq_true, if_false]
    rw [hz]
    simp only [Bool.false_eq_true, if_false]
    rw [if_pos hw4]
  refine ⟨hmain, ?_, ?_⟩
  · rw [hmain]
  · rw [hmain]
    simp [updatedMatches]

/-- Witness for the amended claim C8, applying it to exTournament. -/
theorem tournament_final_round_witness :
    reportMatchResult exTournament "m1" [⟨1, "p1"⟩, ⟨2, "p2"⟩] =
      ({ exTournament with
          matchList := updatedMatches exTournament "m1" [⟨1, "p1"⟩, ⟨2, "p2"⟩] },
       [TEvent.tournamentFinished
          (collectWinners (roundMatches exTournament "m1" [⟨1, "p1"⟩, ⟨2, "p2"⟩] 1)),
        TEvent.reportResultAck "m1" "Tournament complete!"]) := by
  exact (tournament_final_round exTournament "m1" [⟨1, "p1"⟩, ⟨2, "p2"⟩]
    ⟨"m1", 1, 1, "rc1", [⟨"p1", "P1"⟩, ⟨"p2", "P2"⟩], "playing", []⟩
    rfl rfl (by decide) (by decide)).1

end Quantum
